import Mathlib

/-!
Shallow embedding of the picorules-docs browser application core:

* the hash router of `src/hooks/useHashRouter.ts` (`parseHash`, `navigate`,
  the `hashchange` listener),
* the document registry of `src/docs/index.ts` (`docs`, interface `DocPage`),
* the search / selection / theme logic of `src/App.tsx`
  (`filteredDocs`, the selection-repair effect, `toggleTheme`, theme init).

JavaScript strings are modelled as Lean `String` with hand-rolled helpers
that follow ECMAScript semantics (`startsWith`, `includes`, `trim`,
first-occurrence `replace`, the regex used by the router).  `toLowerCase`
is modelled on the ASCII range (all registry data is ASCII and every
statement below uses one and the same lowering function on both sides).
-/

/-- Interface `DocPage` of `src/docs/index.ts`: one registry record. -/
structure DocPage where
  id : String
  title : String
  description : String
  content : String
deriving DecidableEq

/-- Type `Route` of `src/hooks/useHashRouter.ts`:
`{ type: 'landing' } | { type: 'doc'; docId: string }`. -/
inductive Route where
  | landing : Route
  | doc : String → Route
deriving DecidableEq

/-- JS `s.startsWith(p)`. -/
def strStarts (s p : String) : Bool :=
  p.data.isPrefixOf s.data

/-- Worker for `strIncludes`: contiguous-sublist test on character lists. -/
def inclChars (p : List Char) : List Char → Bool
  | [] => p.isEmpty
  | c :: cs => p.isPrefixOf (c :: cs) || inclChars p cs

/-- JS `s.includes(p)`: `p` occurs contiguously in `s`. -/
def strIncludes (s p : String) : Bool :=
  inclChars p.data s.data

/-- The ECMAScript `TrimString` white-space set (WhiteSpace ∪ LineTerminator). -/
def isJsSpace (c : Char) : Bool :=
  let n := c.toNat
  n == 0x9 || n == 0xA || n == 0xB || n == 0xC || n == 0xD || n == 0x20 ||
  n == 0xA0 || n == 0x1680 || (decide (0x2000 ≤ n) && decide (n ≤ 0x200A)) ||
  n == 0x2028 || n == 0x2029 || n == 0x202F || n == 0x205F || n == 0x3000 ||
  n == 0xFEFF

/-- JS `s.trim()`. -/
def jsTrim (s : String) : String :=
  String.mk (((s.data.dropWhile isJsSpace).reverse.dropWhile isJsSpace).reverse)

/-- JS `s.toLowerCase()`, on the ASCII range (`Char.toLower` lowers `A`–`Z`
and keeps every other character, exactly as JS does on ASCII input). -/
def jsToLower (s : String) : String :=
  String.mk (s.data.map Char.toLower)

/-- Worker for `jsReplaceFirst`: remove the first occurrence of `p`. -/
def dropFirstOcc (p : List Char) : List Char → List Char
  | [] => []
  | c :: cs =>
    if p.isPrefixOf (c :: cs) then (c :: cs).drop p.length
    else c :: dropFirstOcc p cs

/-- JS `s.replace(p, '')`: string-pattern `replace` rewrites only the first
occurrence of the pattern (here with an empty replacement, as in the router). -/
def jsReplaceFirst (s p : String) : String :=
  String.mk (dropFirstOcc p.data s.data)

/-- ECMAScript line terminators, which `.` in a regex does not match. -/
def isLineTerm (c : Char) : Bool :=
  c.toNat == 0xA || c.toNat == 0xD || c.toNat == 0x2028 || c.toNat == 0x2029

/-- The router's regex `^#\/(.+)$` applied to `h`: `some seg` when `h` is
`"#/" ++ seg` with `seg` non-empty and free of line terminators (a `.` never
matches a line terminator, and the match is anchored on both sides). -/
def canonMatch (h : String) : Option String :=
  if strStarts h "#/" then
    if (h.data.drop 2).isEmpty then none
    else if (h.data.drop 2).any isLineTerm then none
    else some (String.mk (h.data.drop 2))
  else none

/-- Lookup `docs.find((d) => d.id === docId)` — the registry operation the
spec calls `findById` (used by `parseHash` and by `activeDoc`). -/
def findById (docs : List DocPage) (docId : String) : Option DocPage :=
  docs.find? (fun d => d.id == docId)

/-- The `#\/(.+)` arm of `parseHash` (lines 27–39 of useHashRouter.ts): the
canonical-format parse that both the legacy fall-through and the main path
reach.  `if (validDoc)` is JS truthiness on the `find` result, i.e. an
`isSome` test.  Returns the resolved route and the hash rewrite (always
`none` here). -/
def parseCanon (docs : List DocPage) (hash : String) : Route × Option String :=
  match canonMatch hash with
  | some docId =>
    if (findById docs docId).isSome then (Route.doc docId, none)
    else (Route.landing, none)
  | none => (Route.landing, none)

/-- Function `parseHash` of useHashRouter.ts.  The second component models the side
effect `window.location.hash = ...` performed by the legacy-redirect branch:
`some h'` means the fragment was rewritten to `h'` during parsing.  The JS
`const docId = hash.replace('#doc-', '')` binding is inlined. -/
def parseHash (docs : List DocPage) (hash : String) : Route × Option String :=
  if hash = "" ∨ hash = "#" ∨ hash = "#/" then (Route.landing, none)
  else if strStarts hash "#doc-" then
    if (findById docs (jsReplaceFirst hash "#doc-")).isSome then
      (Route.doc (jsReplaceFirst hash "#doc-"),
        some ("#/" ++ jsReplaceFirst hash "#doc-"))
    else parseCanon docs hash
  else parseCanon docs hash

/-- The concrete registry `docs` of `src/docs/index.ts`.  The `content`
fields are raw markdown files imported at build time; they are opaque blobs
that no modelled operation ever inspects, so they are abbreviated to the
name of the imported file. -/
def docsRegistry : List DocPage := [
  { id := "introduction", title := "Introduction",
    description := "What is Picorules and why it exists",
    content := "(raw import of 01-introduction.md)" },
  { id := "tutorial", title := "Tutorial",
    description := "Step-by-step guide to writing your first ruleblocks",
    content := "(raw import of 02-tutorial.md)" },
  { id := "language-reference", title := "Language Reference",
    description := "Complete syntax specification for functional and conditional statements",
    content := "(raw import of 03-language-reference.md)" },
  { id := "eadv-model", title := "EADV Model",
    description := "Understanding the Entity-Attribute-Date-Value data structure",
    content := "(raw import of 04-eadv-model.md)" },
  { id := "functions-reference", title := "Functions Reference",
    description := "Complete reference of all available functions and operators",
    content := "(raw import of 05-functions-reference.md)" },
  { id := "jinja2-templating", title := "Jinja2 Templating",
    description := "Creating dashboard templates with Jinja2 syntax",
    content := "(raw import of 06-jinja2-templating.md)" },
  { id := "examples", title := "Examples & Cookbook",
    description := "Real-world clinical patterns and complete ruleblock examples",
    content := "(raw import of 07-examples.md)" },
  { id := "developers", title := "Developers",
    description := "Core team, contributing guidelines, and project architecture",
    content := "(raw import of 08-developers.md)" }
]

/-- Computation `filteredDocs` of `src/App.tsx` (the `useMemo` over `query`): trim and
lower-case the query; an empty trimmed query returns the whole registry,
otherwise keep the records whose lower-cased title or description contains
the query. -/
def filteredDocs (docs : List DocPage) (query : String) : List DocPage :=
  let q := jsToLower (jsTrim query)
  if q = "" then docs
  else docs.filter (fun d =>
    strIncludes (jsToLower d.title) q || strIncludes (jsToLower d.description) q)

/-- The record-level match predicate of the filter: the trimmed lower-cased
query is empty, or occurs in the lower-cased title, or in the lower-cased
description. -/
def matchesQuery (query : String) (d : DocPage) : Bool :=
  let q := jsToLower (jsTrim query)
  q == "" || strIncludes (jsToLower d.title) q || strIncludes (jsToLower d.description) q

/-- The selection-repair effect of `src/App.tsx` (lines 33–41), run after a
query change: an empty filtered list returns early leaving the selection
alone; a selection still visible in the filtered list is kept; otherwise the
first filtered record is selected. -/
def selectAfterFilter (docs : List DocPage) (query sel : String) : String :=
  match filteredDocs docs query with
  | [] => sel
  | d :: rest => if (d :: rest).any (fun x => x.id == sel) then sel else d.id

/-- Derived value `activeDoc` of `src/App.tsx`: `docs.find((doc) => doc.id === selectedDocId)
?? docs[0]`.  `none` models the JS `undefined` that an empty registry would
produce (and that the render would then crash on). -/
def activeDoc (docs : List DocPage) (sel : String) : Option DocPage :=
  match findById docs sel with
  | some d => some d
  | none => docs.head?

/-- The initial selection read at startup: `useState(docs[0].id)`.  `none`
models the out-of-range access `docs[0]` on an empty registry. -/
def initSelected (docs : List DocPage) : Option String :=
  docs.head?.map (fun d => d.id)

/-- The selection-repair effect with its single list access made explicit:
`filteredDocs[0].id` is only read behind the emptiness guard, so the access
(`head?`) can never be the `none` of an out-of-range read. -/
def repairAccess (docs : List DocPage) (query sel : String) : Option String :=
  let fd := filteredDocs docs query
  if fd.isEmpty then some sel
  else if fd.any (fun d => d.id == sel) then some sel
  else fd.head?.map (fun d => d.id)

/-- The theme enum `'light' | 'dark'` of `src/App.tsx`. -/
inductive Theme where
  | light : Theme
  | dark : Theme
deriving DecidableEq

/-- The updater of `toggleTheme`: `prev === 'light' ? 'dark' : 'light'`. -/
def Theme.flip : Theme → Theme
  | Theme.light => Theme.dark
  | Theme.dark => Theme.light

/-- The literal written to storage for each theme. -/
def Theme.str : Theme → String
  | Theme.light => "light"
  | Theme.dark => "dark"

/-- In-memory theme plus the value currently stored under the durable
`'theme'` key (`none` = key absent). -/
structure ThemeState where
  theme : Theme
  storage : Option String
deriving DecidableEq

/-- The `useEffect` on `[theme]` of `src/App.tsx`: every committed theme is
written back to `localStorage` under the `'theme'` key (the DOM class flip
it also performs is presentation-only and not modelled). -/
def applyThemeEffect (s : ThemeState) : ThemeState :=
  { s with storage := some s.theme.str }

/-- One completed `toggleTheme()` click: flip the state, then run the
persistence effect. -/
def toggleTheme (s : ThemeState) : ThemeState :=
  applyThemeEffect { s with theme := s.theme.flip }

/-- Theme initialization of `src/App.tsx` (lines 11–21): the stored string is
returned verbatim whenever it is truthy (non-null and non-empty) — there is
no validation against `'light'`/`'dark'` — otherwise the system dark-mode
probe decides, defaulting to `"light"`. -/
def initTheme (stored : Option String) (prefersDark : Bool) : String :=
  match stored with
  | some saved => if saved ≠ "" then saved else if prefersDark then "dark" else "light"
  | none => if prefersDark then "dark" else "light"

/-- Browser-visible router state: the history stack of fragment values
(head = the current URL's fragment, `""` = no fragment), the React route
state, and a counter of `hashchange` listener invocations. -/
structure HistState where
  entries : List String
  route : Route
  events : Nat
deriving DecidableEq

/-- The fragment of the current URL, as `window.location.hash` reads it. -/
def curHash (s : HistState) : String :=
  s.entries.head?.getD ""

/-- One `hashchange` delivery: the handler re-parses the current fragment and
stores the resulting route.  When the parse performed the legacy rewrite, the
rewrite assignment has already pushed the canonical fragment and queued one
further `hashchange`, which re-parses it; a rewritten fragment starts with
`"#/"`, never with `"#doc-"`, so that second parse performs no rewrite
(lemma `parse_snd_of_rewrite` below) and the cascade stops there. -/
def fireHash (docs : List DocPage) (s : HistState) : HistState :=
  match parseHash docs (curHash s) with
  | (r, none) => { s with route := r, events := s.events + 1 }
  | (r, some h2) =>
    let s1 : HistState := { entries := h2 :: s.entries, route := r, events := s.events + 1 }
    { s1 with route := (parseHash docs h2).1, events := s1.events + 1 }

/-- Function `navigate` of `useHashRouter.ts`.  Landing: `history.pushState(null, '',
pathname)` pushes a fragment-free entry — pushState fires no `hashchange` —
and `setRoute` runs synchronously.  Doc: assign `location.hash`; assigning
the already-current fragment is a browser no-op, otherwise the assignment
pushes an entry and the queued `hashchange` performs the state update. -/
def navigate (docs : List DocPage) (s : HistState) : Route → HistState
  | Route.landing => { entries := "" :: s.entries, route := Route.landing, events := s.events }
  | Route.doc d =>
    let h := "#/" ++ d
    if h = curHash s then s
    else fireHash docs { entries := h :: s.entries, route := s.route, events := s.events }

/-- External stimuli of the router: a `navigate` call or an
externally-triggered fragment change (address-bar edit, back/forward). -/
inductive NavEv where
  | nav : Route → NavEv
  | ext : String → NavEv
deriving DecidableEq

/-- Apply one stimulus.  An external change to the already-current fragment
is a no-op; otherwise the fragment changes and `hashchange` fires. -/
def stepEv (docs : List DocPage) (s : HistState) : NavEv → HistState
  | NavEv.nav r => navigate docs s r
  | NavEv.ext h =>
    if h = curHash s then s
    else fireHash docs { entries := h :: s.entries, route := s.route, events := s.events }

/-- Startup with initial fragment `h0`: `useState(parseHash)` computes the
initial route; a legacy initial fragment is rewritten during that parse,
pushing the canonical fragment whose `hashchange` re-parses it (same route,
no further rewrite). -/
def startState (docs : List DocPage) (h0 : String) : HistState :=
  match parseHash docs h0 with
  | (r, none) => { entries := [h0], route := r, events := 0 }
  | (_, some h2) => { entries := [h2, h0], route := (parseHash docs h2).1, events := 1 }

/-- Run a whole stimulus sequence from a state. -/
def runEvents (docs : List DocPage) (s : HistState) (evs : List NavEv) : HistState :=
  evs.foldl (stepEv docs) s

example : filteredDocs docsRegistry "RULEBLOCKS " =
    [{ id := "tutorial", title := "Tutorial",
       description := "Step-by-step guide to writing your first ruleblocks",
       content := "(raw import of 02-tutorial.md)" }] := by decide
example : filteredDocs docsRegistry "" = docsRegistry := by decide
example : (filteredDocs docsRegistry "zzz-no-match") = [] := by decide
example : selectAfterFilter docsRegistry "ruleblocks" "introduction" = "tutorial" := by decide
example : selectAfterFilter docsRegistry "zzz-no-match" "introduction" = "introduction" := by decide
example : initTheme (some "purple") false = "purple" := by decide
example : initTheme (some "") true = "dark" := by decide
example : initTheme none false = "light" := by decide
example : startState docsRegistry "#doc-tutorial" =
    { entries := ["#/tutorial", "#doc-tutorial"], route := Route.doc "tutorial", events := 1 } := by decide
example : navigate docsRegistry (startState docsRegistry "#/tutorial") Route.landing =
    { entries := ["", "#/tutorial"], route := Route.landing, events := 0 } := by decide
example : navigate docsRegistry (startState docsRegistry "") (Route.doc "eadv-model") =
    { entries := ["#/eadv-model", ""], route := Route.doc "eadv-model", events := 1 } := by decide

lemma strStarts_append (p v : String) : strStarts (p ++ v) p = true := by
  unfold strStarts
  rw [String.data_append, List.isPrefixOf_iff_prefix]
  exact List.prefix_append _ _

lemma strStarts_slash_not_legacy (v : String) :
    strStarts ("#/" ++ v) "#doc-" = false := by
  unfold strStarts
  rw [String.data_append]
  rfl

lemma strStarts_doc_not_canon (v : String) :
    strStarts ("#doc-" ++ v) "#/" = false := by
  unfold strStarts
  rw [String.data_append]
  rfl

lemma starts_slash_not_doc (h : String) (hs : strStarts h "#/" = true) :
    strStarts h "#doc-" = false := by
  unfold strStarts at hs ⊢
  rw [List.isPrefixOf_iff_prefix] at hs
  obtain ⟨t, ht⟩ := hs
  rw [← ht]
  rfl

lemma starts_doc_not_slash (h : String) (hs : strStarts h "#doc-" = true) :
    strStarts h "#/" = false := by
  unfold strStarts at hs ⊢
  rw [List.isPrefixOf_iff_prefix] at hs
  obtain ⟨t, ht⟩ := hs
  rw [← ht]
  rfl

lemma jsReplaceFirst_append (p v : String) (hp : p ≠ "") :
    jsReplaceFirst (p ++ v) p = v := by
  unfold jsReplaceFirst
  rw [String.data_append]
  have hd : p.data ≠ [] := fun h => hp (String.ext h)
  cases hq : p.data with
  | nil => exact absurd hq hd
  | cons c cs =>
    rw [List.cons_append]
    unfold dropFirstOcc
    have hpre : List.isPrefixOf (c :: cs) (c :: (cs ++ v.data)) = true := by
      rw [← List.cons_append, List.isPrefixOf_iff_prefix]
      exact List.prefix_append _ _
    rw [if_pos hpre, ← List.cons_append, List.drop_left]

lemma append_ne_of_length (a b c : String) (h : a.length + b.length ≠ c.length) :
    a ++ b ≠ c := by
  intro he
  apply h
  rw [← String.length_append, he]

lemma doc_append_not_special (v : String) :
    ¬("#doc-" ++ v = "" ∨ "#doc-" ++ v = "#" ∨ "#doc-" ++ v = "#/") := by
  rintro (h | h | h)
  · exact append_ne_of_length "#doc-" v "" (show (5 : Nat) + v.length ≠ 0 by omega) h
  · exact append_ne_of_length "#doc-" v "#" (show (5 : Nat) + v.length ≠ 1 by omega) h
  · exact append_ne_of_length "#doc-" v "#/" (show (5 : Nat) + v.length ≠ 2 by omega) h

lemma canon_append_not_special (v : String) (hv : v ≠ "") :
    ¬("#/" ++ v = "" ∨ "#/" ++ v = "#" ∨ "#/" ++ v = "#/") := by
  have hvl : v.length ≠ 0 := by
    intro h0
    apply hv
    apply String.ext
    exact List.length_eq_zero.mp h0
  rintro (h | h | h)
  · exact append_ne_of_length "#/" v "" (show (2 : Nat) + v.length ≠ 0 by omega) h
  · exact append_ne_of_length "#/" v "#" (show (2 : Nat) + v.length ≠ 1 by omega) h
  · exact append_ne_of_length "#/" v "#/" (show (2 : Nat) + v.length ≠ 2 by omega) h

lemma canonMatch_append (v : String) (hne : v ≠ "")
    (hlt : v.data.any isLineTerm = false) :
    canonMatch ("#/" ++ v) = some v := by
  have hdrop : ("#/" ++ v).data.drop 2 = v.data := by
    rw [String.data_append]
    rfl
  have hemp : v.data.isEmpty = false := by
    cases hq : v.data with
    | nil => exact absurd (String.ext hq) hne
    | cons c cs => rfl
  unfold canonMatch
  rw [if_pos (strStarts_append "#/" v), hdrop]
  rw [if_neg (by simp [hemp]), if_neg (by simp [hlt])]

lemma canonMatch_starts (h seg : String) (hc : canonMatch h = some seg) :
    strStarts h "#/" = true := by
  unfold canonMatch at hc
  by_cases hs : strStarts h "#/" = true
  · exact hs
  · rw [if_neg hs] at hc
    exact absurd hc (by simp)

lemma canonMatch_shape (h seg : String) (hc : canonMatch h = some seg) :
    h = "#/" ++ seg ∧ seg ≠ "" ∧ seg.data.any isLineTerm = false := by
  have hs := canonMatch_starts h seg hc
  unfold canonMatch at hc
  rw [if_pos hs] at hc
  by_cases hemp : (h.data.drop 2).isEmpty = true
  · rw [if_pos hemp] at hc
    exact absurd hc (by simp)
  · rw [if_neg hemp] at hc
    by_cases hany : (h.data.drop 2).any isLineTerm = true
    · rw [if_pos hany] at hc
      exact absurd hc (by simp)
    · rw [if_neg hany] at hc
      have hseg : seg = String.mk (h.data.drop 2) := by
        cases hc
        rfl
      unfold strStarts at hs
      rw [List.isPrefixOf_iff_prefix] at hs
      obtain ⟨t, ht⟩ := hs
      have hdata : h.data = '#' :: '/' :: t := by rw [← ht]; rfl
      have htt : h.data.drop 2 = t := by rw [hdata]; rfl
      refine ⟨?_, ?_, ?_⟩
      · apply String.ext
        rw [String.data_append, hdata, hseg, htt]
        rfl
      · intro h0
        apply hemp
        rw [hseg] at h0
        have : h.data.drop 2 = [] := congrArg String.data h0
        rw [this]
        rfl
      · rw [hseg, htt]
        rw [htt] at hany
        exact Bool.eq_false_iff.mpr hany

lemma findById_of_mem (docs : List DocPage) (v : String)
    (hv : v ∈ docs.map (fun d => d.id)) :
    ∃ d, findById docs v = some d ∧ d.id = v := by
  have hsome : (docs.find? (fun d => d.id == v)).isSome = true := by
    rw [List.find?_isSome]
    obtain ⟨d, hd, hid⟩ := List.mem_map.mp hv
    exact ⟨d, hd, by simp [hid]⟩
  obtain ⟨d, hd⟩ := Option.isSome_iff_exists.mp hsome
  refine ⟨d, hd, ?_⟩
  have := List.find?_some hd
  simpa using this

lemma findById_of_not_mem (docs : List DocPage) (s : String)
    (hs : s ∉ docs.map (fun d => d.id)) :
    findById docs s = none := by
  apply List.find?_eq_none.mpr
  intro d hd hp
  apply hs
  have hid : d.id = s := by simpa using hp
  exact List.mem_map.mpr ⟨d, hd, hid⟩

lemma findById_self (docs : List DocPage)
    (hnd : (docs.map (fun d => d.id)).Nodup) (r : DocPage) (hr : r ∈ docs) :
    findById docs r.id = some r := by
  induction docs with
  | nil => cases hr
  | cons d rest ih =>
    rw [List.map_cons, List.nodup_cons] at hnd
    rcases List.mem_cons.mp hr with rfl | hr2
    · exact List.find?_cons_of_pos _ (by simp)
    · have hne : ¬((fun x => x.id == r.id) d = true) := by
        simp only [beq_iff_eq]
        intro heq
        exact hnd.1 (heq ▸ List.mem_map.mpr ⟨r, hr2, rfl⟩)
      exact (List.find?_cons_of_neg (p := fun (x : DocPage) => x.id == r.id) rest hne).trans
        (ih hnd.2 hr2)

lemma parseCanon_snd (docs : List DocPage) (h : String) :
    (parseCanon docs h).2 = none := by
  unfold parseCanon
  split
  · split <;> rfl
  · rfl

lemma parseHash_legacy_found (docs : List DocPage) (v : String) (d : DocPage)
    (hf : findById docs v = some d) :
    parseHash docs ("#doc-" ++ v) = (Route.doc v, some ("#/" ++ v)) := by
  unfold parseHash
  rw [if_neg (doc_append_not_special v),
    if_pos (strStarts_append "#doc-" v),
    jsReplaceFirst_append "#doc-" v (by decide), hf]
  rfl

lemma parseHash_legacy_not_found (docs : List DocPage) (w : String)
    (hf : findById docs w = none) :
    parseHash docs ("#doc-" ++ w) = (Route.landing, none) := by
  unfold parseHash
  rw [if_neg (doc_append_not_special w),
    if_pos (strStarts_append "#doc-" w),
    jsReplaceFirst_append "#doc-" w (by decide), hf]
  show parseCanon docs ("#doc-" ++ w) = (Route.landing, none)
  unfold parseCanon canonMatch
  rw [if_neg (by simp [strStarts_doc_not_canon])]

lemma canonMatch_not_special (h seg : String) (hc : canonMatch h = some seg) :
    ¬(h = "" ∨ h = "#" ∨ h = "#/") := by
  rintro (rfl | rfl | rfl) <;> exact Option.noConfusion hc

lemma parseHash_canon_found (docs : List DocPage) (h seg : String) (d : DocPage)
    (hc : canonMatch h = some seg) (hf : findById docs seg = some d) :
    parseHash docs h = (Route.doc seg, none) := by
  have hnl : strStarts h "#doc-" = false :=
    starts_slash_not_doc h (canonMatch_starts h seg hc)
  unfold parseHash
  rw [if_neg (canonMatch_not_special h seg hc), if_neg (by simp [hnl])]
  unfold parseCanon
  rw [hc]
  show (if (findById docs seg).isSome = true then (Route.doc seg, none)
    else (Route.landing, none)) = ((Route.doc seg, none) : Route × Option String)
  rw [hf]
  rfl

lemma parseHash_canon_not_found (docs : List DocPage) (h seg : String)
    (hc : canonMatch h = some seg) (hf : findById docs seg = none) :
    parseHash docs h = (Route.landing, none) := by
  have hnl : strStarts h "#doc-" = false :=
    starts_slash_not_doc h (canonMatch_starts h seg hc)
  unfold parseHash
  rw [if_neg (canonMatch_not_special h seg hc), if_neg (by simp [hnl])]
  unfold parseCanon
  rw [hc]
  show (if (findById docs seg).isSome = true then (Route.doc seg, none)
    else (Route.landing, none)) = ((Route.landing, none) : Route × Option String)
  rw [hf]
  rfl

lemma parseHash_unmatched (docs : List DocPage) (h : String)
    (hd : strStarts h "#doc-" = false) (hc : canonMatch h = none)
    (h0 : ¬(h = "" ∨ h = "#" ∨ h = "#/")) :
    parseHash docs h = (Route.landing, none) := by
  unfold parseHash
  rw [if_neg h0, if_neg (by simp [hd])]
  unfold parseCanon
  rw [hc]

lemma legacy_starts_not_special (h : String) (hs : strStarts h "#doc-" = true) :
    ¬(h = "" ∨ h = "#" ∨ h = "#/") := by
  rintro (rfl | rfl | rfl) <;> exact absurd hs (by decide)

lemma parseHash_legacy_invalid_starts (docs : List DocPage) (h : String)
    (hs : strStarts h "#doc-" = true)
    (hf : findById docs (jsReplaceFirst h "#doc-") = none) :
    parseHash docs h = (Route.landing, none) := by
  unfold parseHash
  rw [if_neg (legacy_starts_not_special h hs), if_pos hs, hf]
  show parseCanon docs h = (Route.landing, none)
  unfold parseCanon canonMatch
  rw [if_neg (by simp [starts_doc_not_slash h hs])]

/-- Validity of a route value against a registry: it is the landing route or
names the id of some registry record. -/
def routeOK (docs : List DocPage) (r : Route) : Prop :=
  r = Route.landing ∨ ∃ d ∈ docs, r = Route.doc d.id

lemma routeOK_parseCanon (docs : List DocPage) (h : String) :
    routeOK docs (parseCanon docs h).1 := by
  unfold parseCanon
  split
  next docId heq =>
    split
    next hs =>
      obtain ⟨d, hd⟩ := Option.isSome_iff_exists.mp hs
      right
      refine ⟨d, List.mem_of_find?_eq_some hd, ?_⟩
      have hid : d.id = docId := by simpa using List.find?_some hd
      rw [hid]
    next => left; rfl
  next => left; rfl

lemma routeOK_parse (docs : List DocPage) (h : String) :
    routeOK docs (parseHash docs h).1 := by
  unfold parseHash
  split
  · left; rfl
  · split
    · split
      next hs =>
        obtain ⟨d, hd⟩ := Option.isSome_iff_exists.mp hs
        right
        refine ⟨d, List.mem_of_find?_eq_some hd, ?_⟩
        have hid : d.id = jsReplaceFirst h "#doc-" := by simpa using List.find?_some hd
        rw [hid]
      next => exact routeOK_parseCanon docs _
    · exact routeOK_parseCanon docs _

lemma parseHash_snd_none_of_not_legacy (docs : List DocPage) (h : String)
    (hd : strStarts h "#doc-" = false) : (parseHash docs h).2 = none := by
  unfold parseHash
  split
  · rfl
  · split
    next hs => exact absurd hs (by simp [hd])
    next => exact parseCanon_snd docs h

lemma parseHash_snd_some_shape (docs : List DocPage) (h h2 : String)
    (hp : (parseHash docs h).2 = some h2) : ∃ v, h2 = "#/" ++ v := by
  unfold parseHash at hp
  split at hp
  · exact Option.noConfusion hp
  · split at hp
    · split at hp
      · exact ⟨_, (Option.some.injEq _ _ ▸ hp).symm⟩
      · rw [parseCanon_snd docs h] at hp
        exact Option.noConfusion hp
    · rw [parseCanon_snd docs h] at hp
      exact Option.noConfusion hp

/-- A fragment written by the legacy rewrite is canonical (`"#/" ++ id`) and
therefore never matches the legacy pattern again: re-parsing it performs no
further rewrite.  This is the termination argument for the rewrite cascade
baked into `fireHash`. -/
lemma parse_snd_of_rewrite (docs : List DocPage) (h h2 : String)
    (hp : (parseHash docs h).2 = some h2) : (parseHash docs h2).2 = none := by
  obtain ⟨v, rfl⟩ := parseHash_snd_some_shape docs h h2 hp
  exact parseHash_snd_none_of_not_legacy docs _ (strStarts_slash_not_legacy v)

lemma routeOK_fire (docs : List DocPage) (s : HistState) :
    routeOK docs (fireHash docs s).route := by
  unfold fireHash
  split
  next r heq =>
    have hok := routeOK_parse docs (curHash s)
    rw [heq] at hok
    exact hok
  next r h2 heq =>
    exact routeOK_parse docs h2

lemma routeOK_navigate (docs : List DocPage) (s : HistState) (r0 : Route)
    (h : routeOK docs s.route) : routeOK docs (navigate docs s r0).route := by
  cases r0 with
  | landing => left; rfl
  | doc d =>
    show routeOK docs (if ("#/" ++ d) = curHash s then s
      else fireHash docs ⟨("#/" ++ d) :: s.entries, s.route, s.events⟩).route
    split
    · exact h
    · exact routeOK_fire docs _

lemma routeOK_step (docs : List DocPage) (s : HistState) (e : NavEv)
    (h : routeOK docs s.route) : routeOK docs (stepEv docs s e).route := by
  cases e with
  | nav r0 => exact routeOK_navigate docs s r0 h
  | ext h2 =>
    show routeOK docs (if h2 = curHash s then s
      else fireHash docs ⟨h2 :: s.entries, s.route, s.events⟩).route
    split
    · exact h
    · exact routeOK_fire docs _

lemma routeOK_start (docs : List DocPage) (h0 : String) :
    routeOK docs (startState docs h0).route := by
  unfold startState
  split
  next r heq =>
    have hok := routeOK_parse docs h0
    rw [heq] at hok
    exact hok
  next r h2 heq =>
    exact routeOK_parse docs h2

lemma routeOK_run (docs : List DocPage) (s : HistState) (evs : List NavEv)
    (h : routeOK docs s.route) : routeOK docs (runEvents docs s evs).route := by
  induction evs generalizing s with
  | nil => exact h
  | cons e es ih =>
    show routeOK docs (List.foldl (stepEv docs) (stepEv docs s e) es).route
    exact ih (stepEv docs s e) (routeOK_step docs s e h)

example : parseHash docsRegistry "" = (Route.landing, none) := by decide
example : parseHash docsRegistry "#" = (Route.landing, none) := by decide
example : parseHash docsRegistry "#/" = (Route.landing, none) := by decide
example : parseHash docsRegistry "#/tutorial" = (Route.doc "tutorial", none) := by decide
example : parseHash docsRegistry "#doc-tutorial" = (Route.doc "tutorial", some "#/tutorial") := by decide
example : parseHash docsRegistry "#doc-zzz" = (Route.landing, none) := by decide
example : parseHash docsRegistry "#/zzz" = (Route.landing, none) := by decide
example : parseHash docsRegistry "garbage" = (Route.landing, none) := by decide

/-- C1: Route validity invariant — for every sequence of `navigate` calls and
fragment-change events (from any startup fragment), every reachable route
value is either `Landing` or `Doc docId` with `docId` the id of some registry
record; moreover `parseHash` only ever constructs a `Doc` route from an
identifier present in the registry, so an unresolvable identifier in the
fragment resolves to `Landing`. -/
theorem c1_route_validity (docs : List DocPage) (h0 : String) (evs : List NavEv) :
    ((runEvents docs (startState docs h0) evs).route = Route.landing ∨
      ∃ d ∈ docs, (runEvents docs (startState docs h0) evs).route = Route.doc d.id) ∧
    (∀ g dId, (parseHash docs g).1 = Route.doc dId →
      dId ∈ docs.map (fun d => d.id)) := by
  constructor
  · exact routeOK_run docs (startState docs h0) evs (routeOK_start docs h0)
  · intro g dId hp
    rcases routeOK_parse docs g with hl | ⟨d, hd, he⟩
    · rw [hl] at hp
      exact Route.noConfusion hp
    · rw [he] at hp
      have : d.id = dId := (Route.doc.injEq _ _).mp hp.symm |>.symm
      exact this ▸ List.mem_map.mpr ⟨d, hd, rfl⟩

/-- Witness for C1 at concrete inputs: a startup on the legacy fragment
`#doc-tutorial` followed by a navigate-to-landing and an external change to
an unknown id leaves the route valid, and a `Doc` produced by `parseHash`
is always a registry id. -/
theorem c1_route_validity_witness :
    ((runEvents docsRegistry (startState docsRegistry "#doc-tutorial")
        [NavEv.nav Route.landing, NavEv.ext "#/nope"]).route = Route.landing ∨
      ∃ d ∈ docsRegistry,
        (runEvents docsRegistry (startState docsRegistry "#doc-tutorial")
          [NavEv.nav Route.landing, NavEv.ext "#/nope"]).route = Route.doc d.id) ∧
    "tutorial" ∈ docsRegistry.map (fun d => d.id) :=
  ⟨(c1_route_validity docsRegistry "#doc-tutorial"
      [NavEv.nav Route.landing, NavEv.ext "#/nope"]).1,
   (c1_route_validity docsRegistry "#doc-tutorial" []).2 "#/tutorial" "tutorial"
      (by decide)⟩

/-- C2 counterexample: the fragment `#doc-introduction` is none of the three
landing literals and is not of the canonical `#/`-segment form, so under the
claim's case split it falls into "every other (malformed) fragment" and
should parse to `Landing`; the code instead resolves it to
`Doc "introduction"` (the legacy-redirect branch). -/
theorem c2_legacy_counterexample :
    ("#doc-introduction" ≠ "" ∧ "#doc-introduction" ≠ "#" ∧
      "#doc-introduction" ≠ "#/" ∧
      strStarts "#doc-introduction" "#/" = false) ∧
    (parseHash docsRegistry "#doc-introduction").1 = Route.doc "introduction" := by
  decide

/-- C2 (amended): fragment parsing — the empty fragment, `#` and `#/` parse
to `Landing`; a fragment matched by the canonical regex `#\/(.+)` parses to
`Doc seg` when the segment is a registry id and to `Landing` otherwise; every
remaining fragment parses to `Landing`, except the legacy form
`#doc-<id>` with `<id>` a registry id, which resolves to `Doc <id>` (claim
C3); in particular a legacy-prefixed fragment whose identifier is unknown
parses to `Landing`.  No branch other than the valid legacy one rewrites the
fragment. -/
theorem c2_fragment_parsing (docs : List DocPage) (h seg : String) :
    (h = "" ∨ h = "#" ∨ h = "#/" → parseHash docs h = (Route.landing, none)) ∧
    (canonMatch h = some seg → seg ∈ docs.map (fun d => d.id) →
      parseHash docs h = (Route.doc seg, none)) ∧
    (canonMatch h = some seg → seg ∉ docs.map (fun d => d.id) →
      parseHash docs h = (Route.landing, none)) ∧
    (strStarts h "#doc-" = false → canonMatch h = none →
      ¬(h = "" ∨ h = "#" ∨ h = "#/") → parseHash docs h = (Route.landing, none)) ∧
    (strStarts h "#doc-" = true →
      jsReplaceFirst h "#doc-" ∉ docs.map (fun d => d.id) →
      parseHash docs h = (Route.landing, none)) := by
  refine ⟨?_, ?_, ?_, ?_, ?_⟩
  · intro h0
    unfold parseHash
    rw [if_pos h0]
  · intro hc hm
    obtain ⟨d, hf, _⟩ := findById_of_mem docs seg hm
    exact parseHash_canon_found docs h seg d hc hf
  · intro hc hm
    exact parseHash_canon_not_found docs h seg hc (findById_of_not_mem docs seg hm)
  · intro hd hc h0
    exact parseHash_unmatched docs h hd hc h0
  · intro hs hm
    exact parseHash_legacy_invalid_starts docs h hs
      (findById_of_not_mem docs _ hm)

/-- Witness for C2 at concrete inputs, one per case of the amended claim. -/
theorem c2_fragment_parsing_witness :
    parseHash docsRegistry "" = (Route.landing, none) ∧
    parseHash docsRegistry "#/tutorial" = (Route.doc "tutorial", none) ∧
    parseHash docsRegistry "#/zzz" = (Route.landing, none) ∧
    parseHash docsRegistry "hello" = (Route.landing, none) ∧
    parseHash docsRegistry "#doc-zzz" = (Route.landing, none) :=
  ⟨(c2_fragment_parsing docsRegistry "" "x").1 (Or.inl rfl),
   (c2_fragment_parsing docsRegistry "#/tutorial" "tutorial").2.1 (by decide) (by decide),
   (c2_fragment_parsing docsRegistry "#/zzz" "zzz").2.2.1 (by decide) (by decide),
   (c2_fragment_parsing docsRegistry "hello" "x").2.2.2.1 (by decide) (by decide) (by decide),
   (c2_fragment_parsing docsRegistry "#doc-zzz" "x").2.2.2.2 (by decide) (by decide)⟩

/-- C3: Legacy rewrite fixpoint — for every registry id `v`, parsing
`#doc-<v>` resolves to `Doc v` and rewrites the fragment to `#/<v>`;
re-parsing that rewritten fragment yields `Doc v` again with no further
rewrite (the canonical form never matches the legacy pattern); and for every
string `w` that is not a registry id, `#doc-<w>` performs no rewrite and
resolves to `Landing`. -/
theorem c3_legacy_rewrite_fixpoint :
    (∀ v ∈ docsRegistry.map (fun d => d.id),
      parseHash docsRegistry ("#doc-" ++ v) = (Route.doc v, some ("#/" ++ v)) ∧
      parseHash docsRegistry ("#/" ++ v) = (Route.doc v, none)) ∧
    (∀ w, w ∉ docsRegistry.map (fun d => d.id) →
      parseHash docsRegistry ("#doc-" ++ w) = (Route.landing, none)) := by
  constructor
  · decide
  · intro w hw
    exact parseHash_legacy_not_found docsRegistry w (findById_of_not_mem docsRegistry w hw)

/-- Witness for C3 at concrete inputs: the registry id `tutorial` and the
non-id `zzz`. -/
theorem c3_legacy_rewrite_fixpoint_witness :
    (parseHash docsRegistry ("#doc-" ++ "tutorial") =
        (Route.doc "tutorial", some ("#/" ++ "tutorial")) ∧
      parseHash docsRegistry ("#/" ++ "tutorial") = (Route.doc "tutorial", none)) ∧
    parseHash docsRegistry ("#doc-" ++ "zzz") = (Route.landing, none) :=
  ⟨c3_legacy_rewrite_fixpoint.1 "tutorial" (by decide),
   c3_legacy_rewrite_fixpoint.2 "zzz" (by decide)⟩

/-- C4 counterexample: from a state whose history holds the single entry
`#/tutorial`, `navigate(Landing)` leaves a TWO-entry history with the old
entry retained beneath the new fragment-free one — the code calls
`history.pushState`, which adds an entry; a history-REPLACING operation
would have left a single entry.  (Fragment clearing, listener silence and
the synchronous route update all do hold; only "history-replacing" is
false.) -/
theorem c4_pushstate_counterexample :
    (navigate docsRegistry
        { entries := ["#/tutorial"], route := Route.doc "tutorial", events := 0 }
        Route.landing).entries = ["", "#/tutorial"] ∧
    (["", "#/tutorial"] : List String).length ≠ (["#/tutorial"] : List String).length := by
  decide

/-- C4 (amended): `navigate(Landing)` clears the URL fragment (the new
current history entry carries the bare path, no fragment) using a
history-PUSHING operation (`history.pushState`, which adds a new entry on
top of the old one) that does not itself trigger the fragment-change
listener (the event counter is unchanged), and synchronously sets the route
state to `Landing`. -/
theorem c4_navigate_landing (docs : List DocPage) (s : HistState) :
    navigate docs s Route.landing =
      { entries := "" :: s.entries, route := Route.landing, events := s.events } ∧
    curHash (navigate docs s Route.landing) = "" :=
  ⟨rfl, rfl⟩

lemma filteredDocs_eq (docs : List DocPage) (q : String) :
    filteredDocs docs q =
      if jsToLower (jsTrim q) = "" then docs
      else docs.filter (fun d =>
        strIncludes (jsToLower d.title) (jsToLower (jsTrim q)) ||
        strIncludes (jsToLower d.description) (jsToLower (jsTrim q))) := rfl

lemma matchesQuery_eq (q : String) (d : DocPage) :
    matchesQuery q d =
      ((jsToLower (jsTrim q) == "") ||
        strIncludes (jsToLower d.title) (jsToLower (jsTrim q)) ||
        strIncludes (jsToLower d.description) (jsToLower (jsTrim q))) := rfl

/-- C5: Filter correctness — every record of `filteredDocs q` satisfies the
match predicate (the trimmed lower-cased query is empty or occurs in the
lower-cased title or description); the filtered list is a subsequence of the
registry preserving its order; the empty query returns the whole registry;
and membership in the filtered list is exactly registry membership plus the
match predicate. -/
theorem c5_filter_correctness (docs : List DocPage) (q : String) :
    (∀ d ∈ filteredDocs docs q, matchesQuery q d = true) ∧
    (filteredDocs docs q).Sublist docs ∧
    filteredDocs docs "" = docs ∧
    (∀ d, d ∈ filteredDocs docs q ↔ d ∈ docs ∧ matchesQuery q d = true) := by
  have hfd := filteredDocs_eq docs q
  by_cases hq : jsToLower (jsTrim q) = ""
  · rw [if_pos hq] at hfd
    have hm : ∀ d : DocPage, matchesQuery q d = true := by
      intro d
      rw [matchesQuery_eq, hq]
      rfl
    refine ⟨fun d _ => hm d, ?_, ?_, ?_⟩
    · rw [hfd]
    · rw [filteredDocs_eq, if_pos (show jsToLower (jsTrim "") = "" from rfl)]
    · intro d
      rw [hfd]
      simp [hm d]
  · rw [if_neg hq] at hfd
    have hm : ∀ d : DocPage, matchesQuery q d =
        (strIncludes (jsToLower d.title) (jsToLower (jsTrim q)) ||
          strIncludes (jsToLower d.description) (jsToLower (jsTrim q))) := by
      intro d
      rw [matchesQuery_eq]
      rw [show (jsToLower (jsTrim q) == "") = false from beq_eq_false_iff_ne.mpr hq]
      rfl
    refine ⟨?_, ?_, ?_, ?_⟩
    · intro d hd
      rw [hfd] at hd
      rw [hm d]
      exact (List.mem_filter.mp hd).2
    · rw [hfd]
      exact List.filter_sublist docs
    · rw [filteredDocs_eq, if_pos (show jsToLower (jsTrim "") = "" from rfl)]
    · intro d
      rw [hfd, hm d, List.mem_filter]

/-- Witness for C5 at concrete inputs: the query `eadv` and the EADV-Model
record. -/
theorem c5_filter_correctness_witness :
    matchesQuery "eadv"
      { id := "eadv-model", title := "EADV Model",
        description := "Understanding the Entity-Attribute-Date-Value data structure",
        content := "(raw import of 04-eadv-model.md)" } = true ∧
    (filteredDocs docsRegistry "eadv").Sublist docsRegistry ∧
    filteredDocs docsRegistry "" = docsRegistry :=
  have h := c5_filter_correctness docsRegistry "eadv"
  ⟨h.1 _ (by decide), h.2.1, h.2.2.1⟩

/-- C6: Selection consistency rule — after a query change, if the filtered
list is non-empty (its head is `d0`) and the previously selected id is not
among the filtered ids, the new selection is `d0.id` (= `filteredDocs[0].id`);
if the previous id is still among the filtered ids, the selection is
unchanged; if the filtered list is empty, the selection is left unchanged. -/
theorem c6_selection_repair (docs : List DocPage) (q sel : String) :
    (∀ d0, (filteredDocs docs q).head? = some d0 →
      sel ∉ (filteredDocs docs q).map (fun d => d.id) →
      selectAfterFilter docs q sel = d0.id) ∧
    (sel ∈ (filteredDocs docs q).map (fun d => d.id) →
      selectAfterFilter docs q sel = sel) ∧
    (filteredDocs docs q = [] → selectAfterFilter docs q sel = sel) := by
  cases hfd : filteredDocs docs q with
  | nil =>
    have hstep : selectAfterFilter docs q sel = sel := by
      unfold selectAfterFilter
      rw [hfd]
    refine ⟨?_, ?_, fun _ => hstep⟩
    · intro d0 hh
      exact absurd hh (by simp)
    · intro hm
      simp at hm
  | cons d rest =>
    have hstep : selectAfterFilter docs q sel =
        if (d :: rest).any (fun x => x.id == sel) then sel else d.id := by
      unfold selectAfterFilter
      rw [hfd]
    refine ⟨?_, ?_, ?_⟩
    · intro d0 hh hnm
      have hd0 : d = d0 := by simpa using hh
      have hany : (d :: rest).any (fun x => x.id == sel) = false := by
        cases hb : (d :: rest).any (fun x => x.id == sel) with
        | false => rfl
        | true =>
          obtain ⟨x, hx, hpx⟩ := List.any_eq_true.mp hb
          have hxid : x.id = sel := by simpa using hpx
          exact absurd (List.mem_map.mpr ⟨x, hx, hxid⟩) hnm
      rw [hstep, if_neg (by simp [hany]), hd0]
    · intro hm
      obtain ⟨x, hx, hxid⟩ := List.mem_map.mp hm
      have hany : (d :: rest).any (fun x => x.id == sel) = true :=
        List.any_eq_true.mpr ⟨x, hx, by simp [hxid]⟩
      rw [hstep, if_pos hany]
    · intro h0
      exact absurd h0 (by simp)

/-- Witness for C6 at concrete inputs: under the query `ruleblocks` the
filtered list is `[Tutorial]`; a stale selection `introduction` is repaired
to `tutorial`, a still-visible selection is kept, and the no-match query
`zzz` leaves the selection untouched. -/
theorem c6_selection_repair_witness :
    selectAfterFilter docsRegistry "ruleblocks" "introduction" = "tutorial" ∧
    selectAfterFilter docsRegistry "ruleblocks" "tutorial" = "tutorial" ∧
    selectAfterFilter docsRegistry "zzz" "introduction" = "introduction" :=
  ⟨(c6_selection_repair docsRegistry "ruleblocks" "introduction").1
      { id := "tutorial", title := "Tutorial",
        description := "Step-by-step guide to writing your first ruleblocks",
        content := "(raw import of 02-tutorial.md)" }
      (by decide) (by decide),
   (c6_selection_repair docsRegistry "ruleblocks" "tutorial").2.1 (by decide),
   (c6_selection_repair docsRegistry "zzz" "introduction").2.2 (by decide)⟩

/-- C7: Registry lookup — given that registry ids are pairwise distinct, for
every record `r` the lookup `findById r.id` returns `r` itself; for every
string matching no registry id it returns `none` (absent, not an error); and
the callers handle absence by falling back: `activeDoc` falls back to the
first record, `parseHash` resolves an unfound canonical segment to
`Landing`. -/
theorem c7_find_by_id (docs : List DocPage)
    (hnd : (docs.map (fun d => d.id)).Nodup) :
    (∀ r ∈ docs, findById docs r.id = some r) ∧
    (∀ s, s ∉ docs.map (fun d => d.id) → findById docs s = none) ∧
    (∀ sel, findById docs sel = none → activeDoc docs sel = docs.head?) ∧
    (∀ h seg, canonMatch h = some seg → findById docs seg = none →
      parseHash docs h = (Route.landing, none)) := by
  refine ⟨fun r hr => findById_self docs hnd r hr,
    fun s hs => findById_of_not_mem docs s hs, ?_, ?_⟩
  · intro sel hf
    unfold activeDoc
    rw [hf]
  · intro h seg hc hf
    exact parseHash_canon_not_found docs h seg hc hf

/-- Witness for C7 at concrete inputs: the Tutorial record and the non-id
`zzz` against the concrete registry (whose ids are pairwise distinct). -/
theorem c7_find_by_id_witness :
    findById docsRegistry "tutorial" =
      some
        { id := "tutorial", title := "Tutorial",
          description := "Step-by-step guide to writing your first ruleblocks",
          content := "(raw import of 02-tutorial.md)" } ∧
    findById docsRegistry "zzz" = none ∧
    activeDoc docsRegistry "zzz" = docsRegistry.head? ∧
    parseHash docsRegistry "#/zzz" = (Route.landing, none) :=
  have h := c7_find_by_id docsRegistry (by decide)
  ⟨h.1
      { id := "tutorial", title := "Tutorial",
        description := "Step-by-step guide to writing your first ruleblocks",
        content := "(raw import of 02-tutorial.md)" }
      (by decide),
   h.2.1 "zzz" (by decide),
   h.2.2.1 "zzz" (h.2.1 "zzz" (by decide)),
   h.2.2.2 "#/zzz" "zzz" (by decide) (h.2.1 "zzz" (by decide))⟩

/-- C8: Theme round-trip and persistence — from either starting theme,
toggling twice returns the in-memory theme to its original value, and after
every completed theme change the value stored under the `'theme'` key equals
the in-memory theme (so a reload preserves it). -/
theorem c8_theme_roundtrip (s : ThemeState) :
    (toggleTheme (toggleTheme s)).theme = s.theme ∧
    (toggleTheme s).storage = some (toggleTheme s).theme.str ∧
    (toggleTheme (toggleTheme s)).storage = some s.theme.str := by
  cases s with
  | mk t st => cases t <;> exact ⟨rfl, rfl, rfl⟩

/-- C9 counterexample: with the empty string stored under the theme key — a
stored value that exists but is falsy — startup ignores it and consults the
system-preference probe (the result depends on the probe), contradicting the
claim that the probe is consulted only when no stored value exists at all. -/
theorem c9_stored_empty_counterexample :
    initTheme (some "") true = "dark" ∧
    initTheme (some "") false = "light" ∧
    (some "" : Option String) ≠ none := by
  refine ⟨rfl, rfl, ?_⟩
  intro h
  exact Option.noConfusion h

/-- C9 (amended): theme initialization performs no validation — every
non-empty stored string is adopted verbatim as the initial theme, even when
it is neither `light` nor `dark`; the system-preference probe (and the
`light` default) is consulted exactly when no stored value exists or the
stored value is the empty string (JS truthiness). -/
theorem c9_theme_init_verbatim (s : String) (b : Bool) (hs : s ≠ "") :
    initTheme (some s) b = s ∧
    initTheme none b = (if b then "dark" else "light") ∧
    initTheme (some "") b = (if b then "dark" else "light") := by
  refine ⟨?_, rfl, rfl⟩
  show (if s ≠ "" then s else if b = true then "dark" else "light") = s
  rw [if_pos hs]

/-- Witness for C9 at concrete inputs: the invalid stored string `purple` is
adopted verbatim. -/
theorem c9_theme_init_verbatim_witness :
    initTheme (some "purple") true = "purple" ∧
    initTheme none true = (if true then "dark" else "light") ∧
    initTheme (some "") true = (if true then "dark" else "light") :=
  c9_theme_init_verbatim "purple" true (by decide)

/-- C10: Non-empty registry precondition — when the registry has at least one
record, the startup read `docs[0].id` is in range, the active-document
fallback `?? docs[0]` always produces a record, and the selection-repair
effect's only list access sits behind its emptiness guard (so it is total
even without the precondition); with an empty registry the startup read
itself is out of range. -/
theorem c10_nonempty_registry (docs : List DocPage) (hne : docs ≠ []) :
    (initSelected docs).isSome = true ∧
    (∀ sel, (activeDoc docs sel).isSome = true) ∧
    (∀ q sel, (repairAccess docs q sel).isSome = true) ∧
    initSelected ([] : List DocPage) = none := by
  obtain ⟨d, rest, rfl⟩ : ∃ d rest, docs = d :: rest := by
    cases docs with
    | nil => exact absurd rfl hne
    | cons d rest => exact ⟨d, rest, rfl⟩
  refine ⟨rfl, ?_, ?_, rfl⟩
  · intro sel
    unfold activeDoc
    cases hf : findById (d :: rest) sel with
    | some x => rfl
    | none => rfl
  · intro q sel
    unfold repairAccess
    cases hfd : filteredDocs (d :: rest) q with
    | nil => rfl
    | cons x xs =>
      show (if (x :: xs).isEmpty = true then some sel
        else if (x :: xs).any (fun d => d.id == sel) then some sel
        else (x :: xs).head?.map (fun d => d.id)).isSome = true
      rw [if_neg (by simp)]
      split <;> rfl

/-- Witness for C10 at concrete inputs: the concrete registry is non-empty
and every modelled access is in range; the empty registry fails at startup. -/
theorem c10_nonempty_registry_witness :
    (initSelected docsRegistry).isSome = true ∧
    (activeDoc docsRegistry "zzz").isSome = true ∧
    (repairAccess docsRegistry "zzz-no-match" "tutorial").isSome = true ∧
    initSelected ([] : List DocPage) = none :=
  have h := c10_nonempty_registry docsRegistry (by decide)
  ⟨h.1, h.2.1 "zzz", h.2.2.1 "zzz-no-match" "tutorial", h.2.2.2⟩
